import Mathlib

/-!
Shallow embedding of the ethereum-indexer repository (TypeScript sources) in
Lean 4, used to settle the claims of its natural-language specification.

The embedding covers:
* the schema validator (`packages/schemas`, zod `TransactionSchema`),
  including an exact-rational model of the JavaScript `Number(string)`
  conversion used by the `amount` refinement;
* the persistence layer (`packages/db-core/src/postgres.ts`):
  `insertBatch`, `bulkInsert`, `rollbackState`, `saveCheckpoint`,
  `getHeadBlock`, modelled as pure transformations of a `Store` value
  (transaction rows keyed on `(tx_hash, block_number)` plus the single
  `chain_head` checkpoint row);
* one iteration of the ingestion daemon's polling loop
  (`packages/indexer-daemon/src/index.ts`);
* the maintenance rollback command (`packages/imu/src/commands/rollback.ts`);
* the backfill driver's `fetchWithRetry` helper
  (`packages/imu/src/commands/backfill.ts`);
* the RPC health monitor `ReliableProviderManager.checkProviders`
  (`packages/blockchain`).

Database `NOW()` timestamps are passed in explicitly as an integer `now`
parameter; failure injection (a database error inside a transaction) is an
explicit boolean, since a failed transaction rolls back and leaves the store
unchanged.
-/

/-- One row of the `transactions` table (schema.sql): primary key is
`(tx_hash, block_number)`; `to_address` is nullable. -/
structure TxRow where
  txHash : String
  blockNumber : Int
  blockHash : String
  transactionIndex : Int
  fromAddress : String
  toAddress : Option String
  amount : String
  isInternalCall : Bool
  deriving Repr, DecidableEq

/-- The single `chain_head` row of the `checkpoints` table:
`(block_number, block_hash, last_updated)`. -/
structure Checkpoint where
  blockNumber : Int
  blockHash : String
  lastUpdated : Int
  deriving Repr, DecidableEq

/-- The database state the persistence layer acts on: the `transactions`
rows (in insertion order) and the optional `chain_head` checkpoint row. -/
structure Store where
  txs : List TxRow
  checkpoint : Option Checkpoint
  deriving Repr, DecidableEq

/-- A validated transaction record (`ValidatedTransaction` of
`packages/schemas`): the camel-case wire shape handed to the persistence
layer. `toAddr` models the `to` field, `none` when absent or null
(contract creation). -/
structure ValidatedTransaction where
  blockNumber : Int
  blockHash : String
  transactionHash : String
  transactionIndex : Int
  fromAddr : String
  toAddr : Option String
  amount : String
  isInternalCall : Bool
  deriving Repr, DecidableEq

/-- Column mapping performed by `insertBatch` / `bulkInsert`: wire record to
table row. `tx.to || null` maps the empty string (and absence) to SQL null. -/
def rowOfTx (tx : ValidatedTransaction) : TxRow :=
  { txHash := tx.transactionHash
    blockNumber := tx.blockNumber
    blockHash := tx.blockHash
    transactionIndex := tx.transactionIndex
    fromAddress := tx.fromAddr
    toAddress := match tx.toAddr with
      | some s => if s = "" then none else some s
      | none => none
    amount := tx.amount
    isInternalCall := tx.isInternalCall }

/-- Whether a row with the primary key `(tx_hash, block_number)` of `t`
already exists among `rows`. -/
def keyPresent (t : TxRow) (rows : List TxRow) : Bool :=
  rows.any fun r => r.txHash = t.txHash && r.blockNumber = t.blockNumber

/-- `INSERT ... ON CONFLICT (tx_hash, block_number) DO NOTHING` for a single
row. -/
def insertRow (t : TxRow) (rows : List TxRow) : List TxRow :=
  if keyPresent t rows then rows else rows ++ [t]

/-- The `(maxBlockNum, maxBlockHash)` accumulation of `insertBatch` /
`bulkInsert`: starts at `(-1, "")`, updated on strict increase of the block
number. -/
def maxBlockAcc (data : List ValidatedTransaction) : Int × String :=
  data.foldl
    (fun m tx => if tx.blockNumber > m.1 then (tx.blockNumber, tx.blockHash) else m)
    (-1, "")

/-- `saveCheckpoint` (postgres.ts): upsert of the single `chain_head` row,
setting `block_number`, `block_hash` and refreshing `last_updated` (the
insert path gets `last_updated` from the column default, also `NOW()`). -/
def saveCheckpoint (now blockNumber : Int) (blockHash : String) (s : Store) : Store :=
  { s with checkpoint := some ⟨blockNumber, blockHash, now⟩ }

/-- `insertBatch` (postgres.ts): early-return on an empty batch, otherwise a
single transaction doing per-row conditional inserts followed by a
checkpoint upsert to the batch maximum when `maxBlockNum !== -1 &&
maxBlockHash` is truthy. -/
def insertBatch (data : List ValidatedTransaction) (now : Int) (s : Store) : Store :=
  if data.isEmpty then s
  else
    let rows := data.foldl (fun acc tx => insertRow (rowOfTx tx) acc) s.txs
    let m := maxBlockAcc data
    let s1 : Store := { s with txs := rows }
    if m.1 ≠ -1 ∧ m.2 ≠ "" then saveCheckpoint now m.1 m.2 s1 else s1

/-- `bulkInsert` (postgres.ts): early-return on an empty batch, otherwise
COPY into a staging table and `INSERT ... SELECT ... ON CONFLICT DO
NOTHING` into `transactions` (row-visible effect identical to conditional
inserts in batch order), followed by the same checkpoint upsert. -/
def bulkInsert (data : List ValidatedTransaction) (now : Int) (s : Store) : Store :=
  if data.isEmpty then s
  else
    let rows := data.foldl (fun acc tx => insertRow (rowOfTx tx) acc) s.txs
    let m := maxBlockAcc data
    let s1 : Store := { s with txs := rows }
    if m.1 ≠ -1 ∧ m.2 ≠ "" then saveCheckpoint now m.1 m.2 s1 else s1

/-- `insertBatch` opens a database transaction (connect/BEGIN) exactly when
the batch is non-empty: `if (data.length === 0) return;` precedes
`pool.connect()`. -/
def insertBatchOpensTxn (data : List ValidatedTransaction) : Bool :=
  !data.isEmpty

/-- `bulkInsert` opens a database transaction exactly when the batch is
non-empty, by the same early return. -/
def bulkInsertOpensTxn (data : List ValidatedTransaction) : Bool :=
  !data.isEmpty

/-- `rollbackState` (postgres.ts), success path: one transaction deleting
every row with `block_number >= forkBlockNumber`, then
`UPDATE checkpoints SET block_number = forkBlockNumber - 1, last_updated =
NOW() WHERE id = 'chain_head'` (a no-op when no checkpoint row exists;
`block_hash` is not rewritten). -/
def rollbackState (forkBlockNumber now : Int) (s : Store) : Store :=
  { txs := s.txs.filter fun r => !(r.blockNumber ≥ forkBlockNumber)
    checkpoint := match s.checkpoint with
      | some cp => some { cp with blockNumber := forkBlockNumber - 1, lastUpdated := now }
      | none => none }

/-- `getHeadBlock` (postgres.ts): reads the `chain_head` checkpoint row,
`null` when absent. -/
def getHeadBlock (s : Store) : Option (Int × String) :=
  s.checkpoint.map fun cp => (cp.blockNumber, cp.blockHash)

/-- A block header as used by the daemon's lineage check: the block's own
hash and its parent hash. -/
structure Header where
  hash : String
  parentHash : String
  deriving Repr, DecidableEq

/-- The chain as seen through the RPC transport during one loop iteration:
the current head number, and for each block number its header and its list
of validated transactions (`fetchBlockHeader` / `fetchBlockData`). -/
structure Chain where
  chainHead : Int
  header : Int → Header
  blockTxs : Int → List ValidatedTransaction

/-- One iteration of the ingestion daemon's `while (true)` loop
(indexer-daemon/src/index.ts), success path, as a store transformation:
cold-start bootstrap when no checkpoint exists; at-head sleep when
`dbHead.number + 1 > chainHead`; on parent-hash mismatch
`rollbackState(dbHead.number)`; on match `insertBatch` of the fetched
transactions, or an explicit checkpoint advance for an empty block (guarded
by a truthy header hash, as in the code). -/
def loopIteration (c : Chain) (now : Int) (s : Store) : Store :=
  match getHeadBlock s with
  | none =>
      let txs := c.blockTxs c.chainHead
      if txs.isEmpty then
        let h := c.header c.chainHead
        if h.hash ≠ "" then saveCheckpoint now c.chainHead h.hash s else s
      else insertBatch txs now s
  | some (num, hash) =>
      let target := num + 1
      if target > c.chainHead then s
      else
        let hd := c.header target
        if hd.parentHash ≠ hash then rollbackState num now s
        else
          let txs := c.blockTxs target
          if txs.isEmpty then
            if hd.hash ≠ "" then saveCheckpoint now target hd.hash s else s
          else insertBatch txs now s

/-- The `imu rollback` command action (imu/src/commands/rollback.ts) as a
function from the parsed argument (`none` models `parseInt` returning
`NaN`), a failure flag for the database operation (a thrown error inside
the try block leaves the store unchanged: the transaction rolls back), the
clock and the store, to the process exit status and the resulting store.
The branch order follows the code: NaN/negative check, then
`getHeadBlock` (absent checkpoint prints a notice and returns normally,
which ends the process with status 0), then the roll-forward check, then
`rollbackState`. -/
def rollbackCommand (pn : Option Int) (dbFails : Bool) (now : Int) (s : Store) :
    Int × Store :=
  match pn with
  | none => (1, s)
  | some n =>
    if n < 0 then (1, s)
    else
      match getHeadBlock s with
      | none => (0, s)
      | some (headNum, _) =>
        if n > headNum then (1, s)
        else if dbFails then (1, s)
        else (0, rollbackState n now s)

/-- `MAX_RETRIES` of the backfill command's fetch helper. -/
def MAX_RETRIES : Nat := 5

/-- `fetchWithRetry` of the backfill command (imu/src/commands/backfill.ts),
abstracted over an oracle giving the outcome of each fetch attempt
(`results k = true` means the k-th attempt, 0-based, succeeds). Returns
`(number of fetch attempts performed, backoff delays slept in ms, success)`.
The current call's attempt index is `MAX_RETRIES - retries`; on failure
with `retries = 0` the error is rethrown, otherwise the code sleeps
`1000 * 2 ^ attempt` ms and recurses with `retries - 1`. -/
def fetchWithRetry (results : Nat → Bool) : Nat → Nat × List Nat × Bool
  | 0 =>
    if results (MAX_RETRIES - 0) then (1, [], true) else (1, [], false)
  | r + 1 =>
    if results (MAX_RETRIES - (r + 1)) then (1, [], true)
    else
      let attempt := MAX_RETRIES - (r + 1)
      let rest := fetchWithRetry results r
      (1 + rest.1, 1000 * 2 ^ attempt :: rest.2.1, rest.2.2)

/-- A backfill block fetch as invoked by the driver: `fetchWithRetry(i)`
starts with the default `retries = MAX_RETRIES`. -/
def fetchBlockWithRetry (results : Nat → Bool) : Nat × List Nat × Bool :=
  fetchWithRetry results MAX_RETRIES

/-- State of `ReliableProviderManager` relevant to health: the
`unhealthyProviders` set and the `blockHeights` map, both persistent across
ticks. -/
structure HealthState where
  unhealthy : List String
  blockHeights : List (String × Int)
  deriving Repr, DecidableEq

/-- Set insertion (JS `Set.add`): no duplicates. -/
def setAdd (p : String) (s : List String) : List String :=
  if p ∈ s then s else s ++ [p]

/-- Set removal (JS `Set.delete`). -/
def setDelete (p : String) (s : List String) : List String :=
  s.filter fun q => q ≠ p

/-- Map update (JS `Map.set`): replace the entry if the key is present,
otherwise append. -/
def mapSet (k : String) (v : Int) (m : List (String × Int)) : List (String × Int) :=
  if m.any (fun e => e.1 = k) then
    m.map fun e => if e.1 = k then (k, v) else e
  else m ++ [(k, v)]

/-- Map lookup (JS `Map.get`, with `has` modelled by `isSome`). -/
def mapGet (k : String) (m : List (String × Int)) : Option Int :=
  (m.find? fun e => e.1 = k).map Prod.snd

/-- The stale threshold of the health monitor (`STALE_THRESHOLD = 3`). -/
def STALE_THRESHOLD : Int := 3

/-- One tick of `ReliableProviderManager.checkProviders`
(packages/blockchain): `responses p` is the outcome of this tick's
`getBlockNumber()` call against provider `p` (`none` = failed). Loop 1
records the height of each responding provider in the persistent
`blockHeights` map and adds failed providers to `unhealthyProviders`;
`maxHeight` starts at 0 and is the maximum height observed this tick.
Loop 2 marks a provider unhealthy when `blockHeights` has no entry for it,
keeps it unhealthy when `maxHeight - height > STALE_THRESHOLD`, and
otherwise removes it from the unhealthy set (`height` is read from the
persistent map, so it may date from an earlier tick). -/
def checkProviders (providers : List String) (responses : String → Option Int)
    (st : HealthState) : HealthState :=
  let step1 :=
    providers.foldl
      (fun (acc : HealthState × Int) p =>
        match responses p with
        | some h =>
          ({ acc.1 with blockHeights := mapSet p h acc.1.blockHeights },
            if h > acc.2 then h else acc.2)
        | none =>
          ({ acc.1 with unhealthy := setAdd p acc.1.unhealthy }, acc.2))
      (st, 0)
  let maxHeight := step1.2
  providers.foldl
    (fun (s : HealthState) p =>
      match mapGet p s.blockHeights with
      | none => { s with unhealthy := setAdd p s.unhealthy }
      | some height =>
        if maxHeight - height > STALE_THRESHOLD then
          { s with unhealthy := setAdd p s.unhealthy }
        else
          { s with unhealthy := setDelete p s.unhealthy })
    step1.1

/-- Result of the JavaScript `Number(string)` conversion, as far as the
`amount` refinement observes it: `NaN`, a signed infinity, or a finite
value (modelled exactly as a rational; IEEE rounding of the value does not
change its sign or NaN-ness except for denormal underflow to signed zero,
which no realistic amount string reaches). -/
inductive JsNum where
  | nan : JsNum
  | inf (neg : Bool) : JsNum
  | fin (q : ℚ) : JsNum
  deriving Repr, DecidableEq

/-- Whitespace stripped by `ToNumber` (the common ASCII subset). -/
def isJsWs (c : Char) : Bool :=
  c = ' ' || c = '\t' || c = '\n' || c = '\r'

/-- Strip leading and trailing whitespace. -/
def trimWs (cs : List Char) : List Char :=
  ((cs.dropWhile isJsWs).reverse.dropWhile isJsWs).reverse

/-- Numeric value of a digit character in bases up to 16; 99 (never a valid
digit) for other characters. -/
def charVal (c : Char) : Nat :=
  if c.isDigit then c.toNat - 48
  else if 'a' ≤ c ∧ c ≤ 'f' then c.toNat - 87
  else if 'A' ≤ c ∧ c ≤ 'F' then c.toNat - 55
  else 99

/-- The `0x` / `0o` / `0b` radix prefixes recognised by `ToNumber`. -/
def radixPrefix (cs : List Char) : Option (Nat × List Char) :=
  match cs with
  | c0 :: c1 :: rest =>
    if c0 = '0' then
      if c1 = 'x' ∨ c1 = 'X' then some (16, rest)
      else if c1 = 'o' ∨ c1 = 'O' then some (8, rest)
      else if c1 = 'b' ∨ c1 = 'B' then some (2, rest)
      else none
    else none
  | _ => none

/-- Nonempty digit string in base `b`, as a natural number. -/
def parseRadixDigits (b : Nat) (cs : List Char) : Option Nat :=
  if cs ≠ [] ∧ cs.all (fun c => charVal c < b) then
    some (cs.foldl (fun a c => a * b + charVal c) 0)
  else none

/-- Nonempty decimal digit string, as a natural number. -/
def parseDigitsNat (cs : List Char) : Option Nat :=
  parseRadixDigits 10 cs

/-- Value of a decimal digit string. -/
def digitsVal (cs : List Char) : Nat :=
  cs.foldl (fun a c => a * 10 + charVal c) 0

/-- `DecimalDigits . DecimalDigits` mantissa forms of `StrDecimalLiteral`:
`digits`, `digits.`, `digits.digits`, `.digits`. The value
`intPart + fracPart / 10 ^ fracLen` is built with `mkRat` so that it
evaluates by kernel reduction. -/
def parseMantissa (cs : List Char) : Option ℚ :=
  let ip := cs.takeWhile Char.isDigit
  let r := cs.dropWhile Char.isDigit
  if r = [] then
    if ip = [] then none else some (mkRat (Int.ofNat (digitsVal ip)) 1)
  else if r.head? = some '.' then
    let fr := r.tail
    if fr.all Char.isDigit then
      if ip = [] ∧ fr = [] then none
      else
        some (mkRat (Int.ofNat (digitsVal ip * 10 ^ fr.length + digitsVal fr))
          (10 ^ fr.length))
    else none
  else none

/-- `ExponentPart` digits with optional sign, as an integer. -/
def parseExpPart (cs : List Char) : Option Int :=
  if cs.head? = some '+' then (parseDigitsNat cs.tail).map Int.ofNat
  else if cs.head? = some '-' then (parseDigitsNat cs.tail).map (fun n => -(n : Int))
  else (parseDigitsNat cs).map Int.ofNat

/-- Unsigned decimal literal with optional exponent (`mantissa [eE exp]`). -/
def parseDec (cs : List Char) : Option ℚ :=
  let m := cs.takeWhile fun c => ¬(c = 'e' ∨ c = 'E')
  let r := cs.dropWhile fun c => ¬(c = 'e' ∨ c = 'E')
  match r with
  | [] => parseMantissa m
  | _ :: etail =>
    match parseMantissa m, parseExpPart etail with
    | some mv, some ev =>
      some (if 0 ≤ ev then mkRat (mv.num * Int.ofNat (10 ^ ev.toNat)) mv.den
        else mkRat mv.num (mv.den * 10 ^ (-ev).toNat))
    | _, _ => none

/-- Signed part of `StrDecimalLiteral`: optional sign, then `Infinity` or a
decimal literal. -/
def parseUnsignedDec (cs : List Char) (neg : Bool) : JsNum :=
  if cs = "Infinity".toList then .inf neg
  else
    match parseDec cs with
    | some q => .fin (if neg then mkRat (-q.num) q.den else q)
    | none => .nan

/-- Optional leading sign dispatch of `StrDecimalLiteral`. -/
def parseSignedDec (cs : List Char) : JsNum :=
  if cs.head? = some '+' then parseUnsignedDec cs.tail false
  else if cs.head? = some '-' then parseUnsignedDec cs.tail true
  else parseUnsignedDec cs false

/-- The JavaScript `Number(string)` conversion (ECMA `StringToNumber`):
trim whitespace; empty means 0; a `0x`/`0o`/`0b` prefix takes the unsigned
radix-literal path; otherwise an optionally signed decimal literal or
`Infinity`; anything else is `NaN`. -/
def jsStringToNumber (s : String) : JsNum :=
  let cs := trimWs s.toList
  if cs = [] then .fin 0
  else
    match radixPrefix cs with
    | some (b, rest) =>
      match parseRadixDigits b rest with
      | some n => .fin (mkRat (Int.ofNat n) 1)
      | none => .nan
    | none => parseSignedDec cs

/-- The zod `amount` refinement of `TransactionSchema`:
`s => !isNaN(Number(s)) && Number(s) >= 0` (note `Infinity >= 0` is true
and `-0 >= 0` is true in JavaScript, matching `0 ≤ (0 : ℚ)` here). -/
def amountRefinement (s : String) : Bool :=
  match jsStringToNumber s with
  | .nan => false
  | .inf neg => !neg
  | .fin q => decide (0 ≤ q)

/-- The spec's wording for the `amount` refinement, for comparison with the
code's `amountRefinement`: the string parses as a non-negative integer with
no fractional part and no sign, i.e. it is a nonempty string of decimal
digits. -/
def specAmountAccepts (s : String) : Bool :=
  s.toList ≠ [] && s.toList.all Char.isDigit

/-- A raw (unvalidated) transaction record as submitted to
`TransactionSchema.parse`. Numeric fields are JavaScript numbers, modelled
as exact rationals so that the `.int()` refinement is meaningful; `toAddr`
is `none` when the `to` field is absent or null; `isInternalCall` is `none`
when absent (the schema defaults it to `false`). -/
structure RawTransaction where
  blockNumber : ℚ
  blockHash : String
  fromAddr : String
  toAddr : Option String
  transactionHash : String
  transactionIndex : ℚ
  amount : String
  isInternalCall : Option Bool
  deriving Repr, DecidableEq

/-- A JavaScript number is an integer (`z.number().int()`). -/
def isJsInt (q : ℚ) : Bool :=
  q.den = 1

/-- The zod `startsWith` string check (JS `String.prototype.startsWith`),
stated on character lists so it evaluates by kernel reduction. -/
def strStartsWith (s pre : String) : Bool :=
  List.isPrefixOf pre.toList s.toList

/-- The zod `TransactionSchema` (packages/schemas): `blockNumber` positive
integer, `blockHash` and `transactionHash` 66-character `0x`-strings,
`from` a `0x`-string, `to` optional/nullable `0x`-string,
`transactionIndex` non-negative integer, `amount` via
`amountRefinement`, `isInternalCall` a boolean defaulting to `false`.
Returns the parsed `ValidatedTransaction` on success, `none` on failure. -/
def validateTransaction (r : RawTransaction) : Option ValidatedTransaction :=
  if (isJsInt r.blockNumber && decide (0 < r.blockNumber)
      && strStartsWith r.blockHash "0x" && r.blockHash.length = 66
      && strStartsWith r.fromAddr "0x"
      && (match r.toAddr with
          | some s => strStartsWith s "0x"
          | none => true)
      && strStartsWith r.transactionHash "0x" && r.transactionHash.length = 66
      && isJsInt r.transactionIndex && decide (0 ≤ r.transactionIndex)
      && amountRefinement r.amount) = true then
    some { blockNumber := r.blockNumber.num
           blockHash := r.blockHash
           transactionHash := r.transactionHash
           transactionIndex := r.transactionIndex.num
           fromAddr := r.fromAddr
           toAddr := r.toAddr
           amount := r.amount
           isInternalCall := r.isInternalCall.getD false }
  else none

/-- The spec invariant I1 as a store predicate: every persisted transaction
row is covered by a checkpoint row with `block_number` at least the row's
block. -/
def checkpointCoversAllRows (s : Store) : Bool :=
  s.txs.all fun r =>
    match s.checkpoint with
    | some cp => r.blockNumber ≤ cp.blockNumber
    | none => false

/-- Fixture: a validated transaction in block 100. -/
def txAt100 : ValidatedTransaction :=
  { blockNumber := 100
    blockHash := "0xaaaaaaaaaaaaaaaaaaaaaaaaaaaaaaaaaaaaaaaaaaaaaaaaaaaaaaaaaaaa0100"
    transactionHash := "0x1111111111111111111111111111111111111111111111111111111111111111"
    transactionIndex := 0
    fromAddr := "0xf39fd6e51aad88f6f4ce6ab8827279cfffb92266"
    toAddr := none
    amount := "7"
    isInternalCall := false }

/-- Fixture: a validated transaction in the (earlier) block 50. -/
def txAt50 : ValidatedTransaction :=
  { blockNumber := 50
    blockHash := "0xaaaaaaaaaaaaaaaaaaaaaaaaaaaaaaaaaaaaaaaaaaaaaaaaaaaaaaaaaaaa0050"
    transactionHash := "0x2222222222222222222222222222222222222222222222222222222222222222"
    transactionIndex := 0
    fromAddr := "0xf39fd6e51aad88f6f4ce6ab8827279cfffb92266"
    toAddr := none
    amount := "3"
    isInternalCall := false }

/-- Fixture: a store whose checkpoint sits at block 500. -/
def storeAt500 : Store :=
  { txs := []
    checkpoint := some ⟨500, "0xhead500", 0⟩ }

/-- Fixture: health responses of the first monitor tick — providers A and B
both report height 100. -/
def tickOneResponses : String → Option Int :=
  fun p => if p = "A" then some 100 else if p = "B" then some 100 else none

/-- Fixture: health responses of the second monitor tick — A reports 101, B
fails to respond. -/
def tickTwoResponses : String → Option Int :=
  fun p => if p = "A" then some 101 else none

/-- Claim C1: for every block number N, after a successful
`rollback-to(N)` (`rollbackState`), no transaction row with
`block_number ≥ N` remains in the store and the checkpoint's
`block_number` equals N − 1 (a checkpoint row exists in every state that
reaches `rollbackState`: both callers read it first). -/
theorem rollbackState_contract (N now : Int) (s : Store) (cp : Checkpoint)
    (h : s.checkpoint = some cp) :
    (∀ r ∈ (rollbackState N now s).txs, r.blockNumber < N) ∧
    ∃ cp2, (rollbackState N now s).checkpoint = some cp2 ∧ cp2.blockNumber = N - 1 := by
  constructor
  · intro r hr
    simp only [rollbackState, List.mem_filter] at hr
    have := hr.2
    simp only [Bool.not_eq_eq_eq_not, Bool.not_true, decide_eq_false_iff_not, not_le] at this
    exact this
  · refine ⟨⟨N - 1, cp.blockHash, now⟩, ?_, rfl⟩
    simp [rollbackState, h]

/-- Witness for `rollbackState_contract` at N = 100 on a store holding a
row at block 100 and a checkpoint at 100. -/
theorem rollbackState_contract_witness :
    (∀ r ∈ (rollbackState 100 7 ⟨[rowOfTx txAt100], some ⟨100, "0xh", 0⟩⟩).txs,
        r.blockNumber < 100) ∧
    ∃ cp2, (rollbackState 100 7 ⟨[rowOfTx txAt100], some ⟨100, "0xh", 0⟩⟩).checkpoint
        = some cp2 ∧ cp2.blockNumber = 100 - 1 :=
  rollbackState_contract 100 7 ⟨[rowOfTx txAt100], some ⟨100, "0xh", 0⟩⟩ ⟨100, "0xh", 0⟩ rfl

/-- Claim C2, counterexample: appending a batch for block 100 and then a
batch for the earlier block 50 moves the checkpoint back to 50, leaving
the persisted row at block 100 uncovered — invariant I1 does not survive
arbitrary `append-batch` sequences. -/
theorem checkpoint_invariant_cx :
    checkpointCoversAllRows
      (insertBatch [txAt50] 1 (insertBatch [txAt100] 0 ⟨[], none⟩)) = false ∧
    (insertBatch [txAt50] 1 (insertBatch [txAt100] 0 ⟨[], none⟩)).checkpoint
      = some ⟨50, txAt50.blockHash, 1⟩ ∧
    (insertBatch [txAt50] 1 (insertBatch [txAt100] 0 ⟨[], none⟩)).txs.any
      (fun r => r.blockNumber = 100) = true := by
  refine ⟨by decide, by decide, by decide⟩

/-- Claim C5, counterexample: with no checkpoint in the store, the
`rollback` command's second precondition (a checkpoint exists) fails, yet
the action returns normally — the process ends with exit status 0, not 1. -/
theorem rollbackCommand_missing_checkpoint_exit0 :
    rollbackCommand (some 5) false 0 ⟨[], none⟩ = (0, ⟨[], none⟩) := by
  decide

/-- Claim C8: in `checkProviders`, a provider that fails the current tick's
block-number query is nevertheless marked healthy again when the persistent
`blockHeights` map still holds a close-enough height from an earlier tick:
after tick one (A and B at 100) and tick two (A at 101, B failing), B ends
outside the unhealthy set even though `tickTwoResponses "B" = none`. The
inline comment ("if it already failed connection, skip logic, it's already
in unhealthy set") documents the opposite intent. -/
theorem checkProviders_stale_height_bug :
    (checkProviders ["A", "B"] tickTwoResponses
        (checkProviders ["A", "B"] tickOneResponses ⟨[], []⟩)).unhealthy = [] ∧
    tickTwoResponses "B" = none := by
  refine ⟨by decide, by decide⟩

/-- Claim C9, counterexample: a block whose fetch always fails is attempted
6 times (the initial try plus `MAX_RETRIES = 5` retries), not at most 5,
with backoff delays 1s, 2s, 4s, 8s, 16s. -/
theorem fetchWithRetry_six_attempts_cx :
    ¬((fetchBlockWithRetry fun _ => false).1 ≤ 5) ∧
    fetchBlockWithRetry (fun _ => false)
      = (6, [1000, 2000, 4000, 8000, 16000], false) := by
  refine ⟨by decide, by decide⟩

/-- Claim C10: called on an empty record list, `insertBatch` and
`bulkInsert` return before acquiring a connection (no database transaction
is opened) and leave the entire store unchanged — rows and the checkpoint's
`block_number`, `block_hash` and `last_updated` included. -/
theorem empty_batch_frame (now : Int) (s : Store) :
    insertBatch [] now s = s ∧ bulkInsert [] now s = s ∧
    insertBatchOpensTxn [] = false ∧ bulkInsertOpensTxn [] = false :=
  ⟨rfl, rfl, rfl, rfl⟩

/-- Fixture: a chain whose block 101 has a parent hash that does not match
the stored checkpoint hash of block 100 (a one-block re-org). -/
def chainReorg : Chain := ⟨101, fun _ => ⟨"0xnew101", "0xparB"⟩, fun _ => []⟩

/-- Fixture: a store indexed through block 100. -/
def storeReorg : Store := ⟨[rowOfTx txAt100], some ⟨100, txAt100.blockHash, 0⟩⟩

/-- Claim C3: in a loop iteration where the fetched header of block
`dbHead.number + 1` has a `parent_hash` different from `dbHead.hash` (and
the daemon is not at head), the iteration is exactly
`rollback-to(dbHead.number)`: the checkpoint's block number decreases by
exactly one (the stored hash is untouched, so the next iteration re-tests
lineage one block lower) and no transaction is persisted — every row after
the iteration already existed before it. -/
theorem reorg_iteration_steps_back_one (c : Chain) (now : Int) (s : Store) (cp : Checkpoint)
    (hcp : s.checkpoint = some cp)
    (hbehind : ¬(cp.blockNumber + 1 > c.chainHead))
    (hmis : (c.header (cp.blockNumber + 1)).parentHash ≠ cp.blockHash) :
    loopIteration c now s = rollbackState cp.blockNumber now s ∧
    (loopIteration c now s).checkpoint
      = some ⟨cp.blockNumber - 1, cp.blockHash, now⟩ ∧
    ∀ r ∈ (loopIteration c now s).txs, r ∈ s.txs := by
  have hhead : getHeadBlock s = some (cp.blockNumber, cp.blockHash) := by
    simp [getHeadBlock, hcp]
  have h1 : loopIteration c now s = rollbackState cp.blockNumber now s := by
    simp only [loopIteration, hhead, if_neg hbehind, if_pos hmis]
  refine ⟨h1, ?_, ?_⟩
  · rw [h1]; simp [rollbackState, hcp]
  · rw [h1]; intro r hr; exact (List.mem_filter.mp hr).1

/-- Witness for `reorg_iteration_steps_back_one` on the one-block re-org
fixture: checkpoint 100 drops to 99. -/
theorem reorg_iteration_steps_back_one_witness :
    loopIteration chainReorg 9 storeReorg = rollbackState 100 9 storeReorg ∧
    (loopIteration chainReorg 9 storeReorg).checkpoint
      = some ⟨100 - 1, txAt100.blockHash, 9⟩ ∧
    ∀ r ∈ (loopIteration chainReorg 9 storeReorg).txs, r ∈ storeReorg.txs :=
  reorg_iteration_steps_back_one chainReorg 9 storeReorg ⟨100, txAt100.blockHash, 0⟩
    rfl (by decide) (by decide)

/-- Conflict detection is monotone: a key present before an insert is still
present after it. -/
theorem keyPresent_insertRow_mono (t u : TxRow) (rows : List TxRow)
    (h : keyPresent t rows = true) : keyPresent t (insertRow u rows) = true := by
  unfold insertRow
  split
  · exact h
  · simp only [keyPresent, List.any_append] at h ⊢
    simp [h]

/-- Inserting a row makes its own key present. -/
theorem keyPresent_insertRow_self (t : TxRow) (rows : List TxRow) :
    keyPresent t (insertRow t rows) = true := by
  unfold insertRow
  split
  · assumption
  · simp [keyPresent, List.any_append]

/-- Key presence is preserved across a whole batch of conditional inserts. -/
theorem keyPresent_foldIns_mono (d : List ValidatedTransaction) (rows : List TxRow)
    (t : TxRow) (h : keyPresent t rows = true) :
    keyPresent t (d.foldl (fun acc tx => insertRow (rowOfTx tx) acc) rows) = true := by
  induction d generalizing rows with
  | nil => simpa using h
  | cons x xs ih =>
    simp only [List.foldl_cons]
    exact ih _ (keyPresent_insertRow_mono _ _ _ h)

/-- After a batch of conditional inserts, the key of every batch record is
present. -/
theorem keyPresent_foldIns_mem (d : List ValidatedTransaction) (rows : List TxRow)
    (tx : ValidatedTransaction) (h : tx ∈ d) :
    keyPresent (rowOfTx tx) (d.foldl (fun acc t => insertRow (rowOfTx t) acc) rows)
      = true := by
  induction d generalizing rows with
  | nil => cases h
  | cons x xs ih =>
    simp only [List.foldl_cons]
    rcases List.mem_cons.mp h with h | h
    · subst h
      exact keyPresent_foldIns_mono _ _ _ (keyPresent_insertRow_self _ _)
    · exact ih _ h

/-- A batch whose keys are all already present inserts nothing. -/
theorem foldIns_noop (d : List ValidatedTransaction) (rows : List TxRow)
    (h : ∀ tx ∈ d, keyPresent (rowOfTx tx) rows = true) :
    d.foldl (fun acc tx => insertRow (rowOfTx tx) acc) rows = rows := by
  induction d with
  | nil => rfl
  | cons x xs ih =>
    simp only [List.foldl_cons]
    rw [insertRow, if_pos (h x (List.mem_cons_self x xs))]
    exact ih fun tx ht => h tx (List.mem_cons_of_mem _ ht)

/-- Normal form of `insertBatch` on a non-empty batch: rows get the batch's
conditional inserts; the checkpoint is upserted to the batch maximum when
the `maxBlockNum !== -1 && maxBlockHash` guard holds, else untouched. -/
theorem insertBatch_nonempty (data : List ValidatedTransaction) (now : Int) (s : Store)
    (h : data.isEmpty = false) :
    insertBatch data now s =
      if (maxBlockAcc data).1 ≠ -1 ∧ (maxBlockAcc data).2 ≠ "" then
        ({ txs := data.foldl (fun acc tx => insertRow (rowOfTx tx) acc) s.txs
           checkpoint := some ⟨(maxBlockAcc data).1, (maxBlockAcc data).2, now⟩ } : Store)
      else
        { txs := data.foldl (fun acc tx => insertRow (rowOfTx tx) acc) s.txs
          checkpoint := s.checkpoint } := by
  simp only [insertBatch, h, Bool.false_eq_true, if_false, saveCheckpoint]

/-- Claim C4: replaying `append-batch(X)` is idempotent — the second run's
records all conflict on the `(transaction_hash, block_number)` primary key
and insert nothing, and the checkpoint cursor `(block_number, block_hash)`
is recomputed to the same pair (only its `last_updated` timestamp is
refreshed). -/
theorem insertBatch_replay_idempotent (data : List ValidatedTransaction)
    (t1 t2 : Int) (s : Store) :
    (insertBatch data t2 (insertBatch data t1 s)).txs = (insertBatch data t1 s).txs ∧
    ((insertBatch data t2 (insertBatch data t1 s)).checkpoint.map
        fun cp => (cp.blockNumber, cp.blockHash))
      = ((insertBatch data t1 s).checkpoint.map
        fun cp => (cp.blockNumber, cp.blockHash)) := by
  by_cases hd : data.isEmpty = true
  · simp [insertBatch, hd]
  · have hd2 : data.isEmpty = false := by simpa using hd
    have hnoop : ∀ rows : List TxRow,
        data.foldl (fun acc tx => insertRow (rowOfTx tx) acc)
          (data.foldl (fun acc tx => insertRow (rowOfTx tx) acc) rows)
        = data.foldl (fun acc tx => insertRow (rowOfTx tx) acc) rows := by
      intro rows
      exact foldIns_noop _ _ fun tx ht => keyPresent_foldIns_mem _ _ _ ht
    rw [insertBatch_nonempty data t1 s hd2]
    by_cases hg : (maxBlockAcc data).1 ≠ -1 ∧ (maxBlockAcc data).2 ≠ ""
    · rw [if_pos hg, insertBatch_nonempty data t2 _ hd2, if_pos hg]
      simp [hnoop]
    · rw [if_neg hg, insertBatch_nonempty data t2 _ hd2, if_neg hg]
      simp [hnoop]

/-- Claim C5, amended behaviour of the `rollback` command, in the order the
code checks: a NaN or negative target exits 1 with no modification; a
missing checkpoint ends the process with exit 0 and no modification (the
action returns normally after printing a notice); a target above the
checkpoint exits 1 with no modification; a database failure during the
rollback exits 1 leaving the store unchanged (the transaction rolls back);
otherwise the command performs `rollbackState(target)` and exits 0. -/
theorem rollbackCommand_exit_contract (dbFails : Bool) (now : Int) (s : Store) :
    (rollbackCommand none dbFails now s = (1, s)) ∧
    (∀ n : Int, n < 0 → rollbackCommand (some n) dbFails now s = (1, s)) ∧
    (∀ n : Int, 0 ≤ n → s.checkpoint = none →
      rollbackCommand (some n) dbFails now s = (0, s)) ∧
    (∀ (n : Int) (cp : Checkpoint), 0 ≤ n → s.checkpoint = some cp →
      cp.blockNumber < n → rollbackCommand (some n) dbFails now s = (1, s)) ∧
    (∀ (n : Int) (cp : Checkpoint), 0 ≤ n → s.checkpoint = some cp →
      n ≤ cp.blockNumber → dbFails = true →
      rollbackCommand (some n) dbFails now s = (1, s)) ∧
    (∀ (n : Int) (cp : Checkpoint), 0 ≤ n → s.checkpoint = some cp →
      n ≤ cp.blockNumber → dbFails = false →
      rollbackCommand (some n) dbFails now s = (0, rollbackState n now s)) := by
  refine ⟨rfl, ?_, ?_, ?_, ?_, ?_⟩
  · intro n hn
    simp [rollbackCommand, if_pos hn]
  · intro n hn hcp
    simp [rollbackCommand, getHeadBlock, hcp, not_lt.mpr hn]
  · intro n cp hn hcp hlt
    simp [rollbackCommand, getHeadBlock, hcp, not_lt.mpr hn, hlt]
  · intro n cp hn hcp hle hf
    simp [rollbackCommand, getHeadBlock, hcp, not_lt.mpr hn, not_lt.mpr hle, hf]
  · intro n cp hn hcp hle hf
    simp [rollbackCommand, getHeadBlock, hcp, not_lt.mpr hn, not_lt.mpr hle, hf]

/-- Witness for `rollbackCommand_exit_contract` on the spec's own scenario:
checkpoint at 500, `rollback 600` exits 1 touching nothing, while
`rollback 400` performs the rollback and exits 0. -/
theorem rollbackCommand_exit_contract_witness :
    rollbackCommand (some 600) false 0 storeAt500 = (1, storeAt500) ∧
    rollbackCommand (some 400) false 7 storeAt500 = (0, rollbackState 400 7 storeAt500) :=
  ⟨(rollbackCommand_exit_contract false 0 storeAt500).2.2.2.1 600 ⟨500, "0xhead500", 0⟩
      (by decide) rfl (by decide),
   (rollbackCommand_exit_contract false 7 storeAt500).2.2.2.2.2 400 ⟨500, "0xhead500", 0⟩
      (by decide) rfl (by decide) rfl⟩

/-- Fixture: a raw record that is valid except for `blockNumber = 0`. -/
def rawGenesis : RawTransaction :=
  { blockNumber := 0
    blockHash := "0xaaaaaaaaaaaaaaaaaaaaaaaaaaaaaaaaaaaaaaaaaaaaaaaaaaaaaaaaaaaa0000"
    fromAddr := "0xf39fd6e51aad88f6f4ce6ab8827279cfffb92266"
    toAddr := some "0x70997970c51812dc3a010c7d01b50e0d17dc79c8"
    transactionHash := "0x3333333333333333333333333333333333333333333333333333333333333333"
    transactionIndex := 0
    amount := "0"
    isInternalCall := none }

/-- All `TransactionSchema` checks except the `blockNumber` ones: used to
say a record is otherwise valid. -/
def otherwiseValidRaw (r : RawTransaction) : Bool :=
  strStartsWith r.blockHash "0x" && r.blockHash.length = 66
    && strStartsWith r.fromAddr "0x"
    && (match r.toAddr with
        | some s => strStartsWith s "0x"
        | none => true)
    && strStartsWith r.transactionHash "0x" && r.transactionHash.length = 66
    && isJsInt r.transactionIndex && decide (0 ≤ r.transactionIndex)
    && amountRefinement r.amount

/-- Claim C7, counterexample: an otherwise-valid record with
`blockNumber = 0` is rejected by `TransactionSchema`
(`z.number().int().positive()` requires strictly positive), while the same
record with `blockNumber = 1` is accepted — the schema does not accept a
genesis floor of 0. -/
theorem validateTransaction_genesis_cx :
    validateTransaction rawGenesis = none ∧
    otherwiseValidRaw rawGenesis = true ∧
    (validateTransaction { rawGenesis with blockNumber := 1 }).isSome = true := by
  refine ⟨by decide, by decide, by decide⟩

/-- Claim C7, amended: every record with `blockNumber = 0` fails
validation, and for every otherwise-valid record the smallest accepted
block number is 1. -/
theorem validateTransaction_genesis_floor :
    (∀ r : RawTransaction, r.blockNumber = 0 → validateTransaction r = none) ∧
    (∀ r : RawTransaction, otherwiseValidRaw r = true →
      (validateTransaction { r with blockNumber := 1 }).isSome = true) := by
  constructor
  · intro r h
    have hlt : decide (0 < r.blockNumber) = false := by
      rw [h]; decide
    simp [validateTransaction, hlt]
  · intro r h
    simp only [otherwiseValidRaw, Bool.and_eq_true] at h
    obtain ⟨⟨⟨⟨⟨⟨⟨⟨h1, h2⟩, h3⟩, h4⟩, h5⟩, h6⟩, h7⟩, h8⟩, h9⟩ := h
    have hint : isJsInt ((1 : ℚ)) = true := by decide
    have hpos : decide ((0 : ℚ) < 1) = true := by decide
    simp [validateTransaction, h1, h2, h3, h4, h5, h6, h7, h8, h9, hint, hpos]

/-- Witness for `validateTransaction_genesis_floor` on the concrete
fixture. -/
theorem validateTransaction_genesis_floor_witness :
    validateTransaction rawGenesis = none ∧
    (validateTransaction { rawGenesis with blockNumber := 1 }).isSome = true :=
  ⟨(validateTransaction_genesis_floor).1 rawGenesis rfl,
   (validateTransaction_genesis_floor).2 rawGenesis (by decide)⟩

/-- A persistence-layer operation of the kind claim P1 quantifies over:
an `append-batch` or a `bulk-ingest` call. -/
inductive PersistOp where
  | append (data : List ValidatedTransaction) (now : Int) : PersistOp
  | bulk (data : List ValidatedTransaction) (now : Int) : PersistOp
  deriving Repr, DecidableEq

/-- The batch of records an operation carries. -/
def PersistOp.batch : PersistOp → List ValidatedTransaction
  | .append d _ => d
  | .bulk d _ => d

/-- Apply one persistence operation to the store. -/
def applyOp : PersistOp → Store → Store
  | .append d n, s => insertBatch d n s
  | .bulk d n, s => bulkInsert d n s

/-- Apply one persistence operation to the store. -/
def applyOps (ops : List PersistOp) (s : Store) : Store :=
  ops.foldl (fun s op => applyOp op s) s

/-- Schema-guaranteed shape of records reaching the persistence layer:
`blockNumber` at least 1 (`z.number().int().positive()`) and a non-empty
`blockHash` (a 66-character `0x` string). -/
def wellFormedBatch (d : List ValidatedTransaction) : Bool :=
  d.all fun tx => decide (1 ≤ tx.blockNumber) && decide (tx.blockHash ≠ "")

/-- Forward-ingestion side condition: at each step, a non-empty batch's
maximum block number is at least the current checkpoint's block number.
The daemon's ingestion loop satisfies this (it only appends the next
block); a backfill of a range below the checkpoint violates it. -/
def forwardFrom : Store → List PersistOp → Bool
  | _, [] => true
  | s, op :: rest =>
    (if op.batch.isEmpty then true
     else
       match s.checkpoint with
       | some cp => decide (cp.blockNumber ≤ (maxBlockAcc op.batch).1)
       | none => true)
    && forwardFrom (applyOp op s) rest

/-- `bulkInsert`'s staging-table path has the same store-visible effect as
`insertBatch`: conditional inserts in batch order plus the same checkpoint
upsert. -/
theorem bulkInsert_eq_insertBatch (d : List ValidatedTransaction) (now : Int) (s : Store) :
    bulkInsert d now s = insertBatch d now s := rfl

/-- The max-block fold never goes below its initial accumulator. -/
theorem foldMax_ge_init (d : List ValidatedTransaction) (m : Int × String) :
    m.1 ≤ (d.foldl
      (fun m tx => if tx.blockNumber > m.1 then (tx.blockNumber, tx.blockHash) else m)
      m).1 := by
  induction d generalizing m with
  | nil => simp
  | cons x xs ih =>
    simp only [List.foldl_cons]
    refine le_trans ?_ (ih _)
    split
    · next h => exact le_of_lt h
    · exact le_refl _

/-- The max-block fold dominates every batch member's block number. -/
theorem foldMax_ge_mem (d : List ValidatedTransaction) (m : Int × String)
    (tx : ValidatedTransaction) (h : tx ∈ d) :
    tx.blockNumber ≤ (d.foldl
      (fun m tx => if tx.blockNumber > m.1 then (tx.blockNumber, tx.blockHash) else m)
      m).1 := by
  induction d generalizing m with
  | nil => cases h
  | cons x xs ih =>
    simp only [List.foldl_cons]
    rcases List.mem_cons.mp h with h | h
    · subst h
      refine le_trans ?_ (foldMax_ge_init xs _)
      split
      · exact le_refl _
      · next hgt => exact le_of_not_lt hgt
    · exact ih _ h

/-- The max-block fold returns its initial accumulator or the
`(blockNumber, blockHash)` pair of some batch member. -/
theorem foldMax_result (d : List ValidatedTransaction) (m : Int × String) :
    (d.foldl
      (fun m tx => if tx.blockNumber > m.1 then (tx.blockNumber, tx.blockHash) else m)
      m) = m ∨
    ∃ tx ∈ d, (d.foldl
      (fun m tx => if tx.blockNumber > m.1 then (tx.blockNumber, tx.blockHash) else m)
      m) = (tx.blockNumber, tx.blockHash) := by
  induction d generalizing m with
  | nil => exact Or.inl rfl
  | cons x xs ih =>
    simp only [List.foldl_cons]
    rcases ih (if x.blockNumber > m.1 then (x.blockNumber, x.blockHash) else m) with h | ⟨tx, htx, h⟩
    · rw [h]
      split
      · exact Or.inr ⟨x, List.mem_cons_self x xs, rfl⟩
      · exact Or.inl rfl
    · exact Or.inr ⟨tx, List.mem_cons_of_mem _ htx, h⟩

/-- Unfolding equation for `maxBlockAcc`. -/
theorem maxBlockAcc_eq (d : List ValidatedTransaction) :
    maxBlockAcc d = d.foldl
      (fun m tx => if tx.blockNumber > m.1 then (tx.blockNumber, tx.blockHash) else m)
      (-1, "") := rfl

/-- On a non-empty well-formed batch the checkpoint-upsert guard holds:
the accumulated maximum is a real batch member's pair, so `maxBlockNum`
is at least 1 (hence not -1) and `maxBlockHash` is non-empty. -/
theorem maxBlockAcc_wf (d : List ValidatedTransaction) (hne : d ≠ [])
    (hwf : wellFormedBatch d = true) :
    1 ≤ (maxBlockAcc d).1 ∧ (maxBlockAcc d).1 ≠ -1 ∧ (maxBlockAcc d).2 ≠ "" := by
  simp only [wellFormedBatch, List.all_eq_true, Bool.and_eq_true, decide_eq_true_eq] at hwf
  rcases foldMax_result d (-1, "") with h | ⟨tx, htx, h⟩
  · exfalso
    obtain ⟨x, hx⟩ : ∃ x, x ∈ d := by
      cases d with
      | nil => exact absurd rfl hne
      | cons y ys => exact ⟨y, List.mem_cons_self y ys⟩
    have h1 := foldMax_ge_mem d (-1, "") x hx
    rw [h] at h1
    have h1b : x.blockNumber ≤ -1 := h1
    have h2 := (hwf x hx).1
    omega
  · have hm : maxBlockAcc d = (tx.blockNumber, tx.blockHash) := by
      rw [maxBlockAcc_eq, h]
    have h1 := (hwf tx htx).1
    have h2 := (hwf tx htx).2
    rw [hm]
    exact ⟨h1, by omega, h2⟩

/-- Rows after a batch of conditional inserts: each was already present
or is the row of some batch record. -/
theorem mem_foldIns (d : List ValidatedTransaction) (rows : List TxRow) (r : TxRow)
    (h : r ∈ d.foldl (fun acc tx => insertRow (rowOfTx tx) acc) rows) :
    r ∈ rows ∨ ∃ tx ∈ d, r = rowOfTx tx := by
  induction d generalizing rows with
  | nil => exact Or.inl h
  | cons x xs ih =>
    simp only [List.foldl_cons] at h
    rcases ih _ h with h2 | ⟨tx, htx, h2⟩
    · rw [insertRow] at h2
      split at h2
      · exact Or.inl h2
      · rcases List.mem_append.mp h2 with h3 | h3
        · exact Or.inl h3
        · simp only [List.mem_singleton] at h3
          exact Or.inr ⟨x, List.mem_cons_self x xs, h3⟩
    · exact Or.inr ⟨tx, List.mem_cons_of_mem _ htx, h2⟩

/-- Characterisation of invariant I1 as a membership statement. -/
theorem inv_iff (s : Store) :
    checkpointCoversAllRows s = true ↔
    ∀ r ∈ s.txs, ∃ cp, s.checkpoint = some cp ∧ r.blockNumber ≤ cp.blockNumber := by
  cases hcp : s.checkpoint with
  | none => simp [checkpointCoversAllRows, hcp, List.all_eq_true]
  | some cp => simp [checkpointCoversAllRows, hcp, List.all_eq_true]

/-- One `append-batch` of a well-formed batch whose maximum block is not
below the current checkpoint preserves invariant I1. -/
theorem insertBatch_preserves_inv (d : List ValidatedTransaction) (now : Int) (s : Store)
    (hwf : wellFormedBatch d = true)
    (hfwd : d ≠ [] → ∀ cp, s.checkpoint = some cp →
      cp.blockNumber ≤ (maxBlockAcc d).1)
    (hinv : checkpointCoversAllRows s = true) :
    checkpointCoversAllRows (insertBatch d now s) = true := by
  by_cases hd : d.isEmpty = true
  · have : d = [] := List.isEmpty_iff.mp hd
    subst this
    simpa [insertBatch] using hinv
  · have hd2 : d.isEmpty = false := by simpa using hd
    have hne : d ≠ [] := by
      intro h; subst h; simp at hd2
    obtain ⟨hB1, hBne, hHne⟩ := maxBlockAcc_wf d hne hwf
    rw [insertBatch_nonempty d now s hd2, if_pos ⟨hBne, hHne⟩]
    rw [inv_iff]
    intro r hr
    simp only at hr
    refine ⟨⟨(maxBlockAcc d).1, (maxBlockAcc d).2, now⟩, rfl, ?_⟩
    rcases mem_foldIns d s.txs r hr with h | ⟨tx, htx, h⟩
    · obtain ⟨cp, hcp, hle⟩ := (inv_iff s).mp hinv r h
      exact le_trans hle (hfwd hne cp hcp)
    · subst h
      exact foldMax_ge_mem d _ tx htx

/-- Claim C2, amended: after any sequence of `append-batch` /
`bulk-ingest` operations of schema-valid batches in which every non-empty
batch's maximum block number is at least the checkpoint's block number at
the time of the call, every persisted row with block B is covered by a
checkpoint with `block_number ≥ B`. (Without the forward condition the
invariant fails: the checkpoint is upserted to the latest batch's maximum,
see the counterexample.) -/
theorem checkpoint_invariant_forward (ops : List PersistOp) (s : Store)
    (hwf : ∀ op ∈ ops, wellFormedBatch op.batch = true)
    (hfwd : forwardFrom s ops = true)
    (hinv : checkpointCoversAllRows s = true) :
    checkpointCoversAllRows (applyOps ops s) = true := by
  induction ops generalizing s with
  | nil => simpa [applyOps] using hinv
  | cons op rest ih =>
    rw [forwardFrom, Bool.and_eq_true] at hfwd
    obtain ⟨hhead, htail⟩ := hfwd
    have hstep : checkpointCoversAllRows (applyOp op s) = true := by
      have hcond : op.batch ≠ [] → ∀ cp, s.checkpoint = some cp →
          cp.blockNumber ≤ (maxBlockAcc op.batch).1 := by
        intro hne cp hcp
        have hemp : op.batch.isEmpty = false := by
          cases hb : op.batch with
          | nil => exact absurd hb hne
          | cons y ys => simp [hb]
        rw [if_neg (by simp [hemp]), hcp] at hhead
        exact of_decide_eq_true hhead
      have hwfop := hwf op (List.mem_cons_self op rest)
      cases op with
      | append d n =>
        exact insertBatch_preserves_inv d n s hwfop hcond hinv
      | bulk d n =>
        rw [applyOp, bulkInsert_eq_insertBatch]
        exact insertBatch_preserves_inv d n s hwfop hcond hinv
    have := ih (applyOp op s) (fun o ho => hwf o (List.mem_cons_of_mem _ ho)) htail hstep
    simpa [applyOps] using this

/-- Claim C2, amended: after any sequence of `append-batch` /
`bulk-ingest` operations of schema-valid batches in which every non-empty
batch's maximum block number is at least the checkpoint's block number at
the time of the call, every persisted row with block B is covered by a
checkpoint with `block_number ≥ B`. (Without the forward condition the
invariant fails: the checkpoint is upserted to the latest batch's maximum,
see the counterexample.) -/
theorem checkpoint_invariant_forward_witness :
    checkpointCoversAllRows
      (applyOps [PersistOp.append [txAt50] 0, PersistOp.bulk [txAt100] 1] ⟨[], none⟩)
      = true :=
  checkpoint_invariant_forward [PersistOp.append [txAt50] 0, PersistOp.bulk [txAt100] 1]
    ⟨[], none⟩ (by decide) (by decide) (by decide)

/-- Claim C9, amended: the backfill fetch helper attempts a block at most
6 times (an initial attempt plus `MAX_RETRIES = 5` retries); the error is
surfaced exactly when all 6 attempts fail (the k-th attempt, 0-based, is
the oracle's `results k`); and the backoff delays slept between attempts
are `1000 * 2^k` ms — 1s, 2s, 4s, 8s, 16s, doubling from a 1-second
base. -/
theorem fetchWithRetry_contract (results : Nat → Bool) :
    (fetchBlockWithRetry results).1 ≤ 6 ∧
    (fetchBlockWithRetry results).2.2
      = (results 0 || results 1 || results 2 || results 3 || results 4 || results 5) ∧
    (fetchBlockWithRetry results).2.1
      = (List.range ((fetchBlockWithRetry results).1 - 1)).map fun k => 1000 * 2 ^ k := by
  unfold fetchBlockWithRetry MAX_RETRIES
  by_cases h0 : results 0 <;> by_cases h1 : results 1 <;> by_cases h2 : results 2 <;>
    by_cases h3 : results 3 <;> by_cases h4 : results 4 <;> by_cases h5 : results 5 <;>
      simp [fetchWithRetry, MAX_RETRIES, h0, h1, h2, h3, h4, h5, List.range_succ]

/-- A digit character is not `ToNumber` whitespace. -/
theorem digit_not_ws (c : Char) (h : c.isDigit = true) : isJsWs c = false := by
  simp only [isJsWs, Bool.or_eq_false_iff, decide_eq_false_iff_not]
  refine ⟨⟨⟨?_, ?_⟩, ?_⟩, ?_⟩ <;> (rintro rfl; exact absurd h (by decide))

/-- A digit character differs from any non-digit character. -/
theorem digit_ne (c d : Char) (h : c.isDigit = true) (hd : d.isDigit = false) : c ≠ d := by
  rintro rfl
  rw [h] at hd
  exact absurd hd (by decide)

/-- Whitespace-stripping leaves an all-digit list untouched. -/
theorem dropWhile_ws_digits (cs : List Char) (hdig : ∀ c ∈ cs, c.isDigit = true) :
    cs.dropWhile isJsWs = cs := by
  cases cs with
  | nil => rfl
  | cons c t =>
    simp [List.dropWhile_cons, digit_not_ws c (hdig c (List.mem_cons_self c t))]

/-- Trimming leaves an all-digit list untouched. -/
theorem trimWs_digits (cs : List Char) (hdig : ∀ c ∈ cs, c.isDigit = true) :
    trimWs cs = cs := by
  unfold trimWs
  rw [dropWhile_ws_digits cs hdig,
    dropWhile_ws_digits cs.reverse (fun c hc => hdig c (List.mem_reverse.mp hc)),
    List.reverse_reverse]

/-- An all-digit string has no `0x`/`0o`/`0b` radix prefix. -/
theorem radixPrefix_digits (cs : List Char) (hdig : ∀ c ∈ cs, c.isDigit = true) :
    radixPrefix cs = none := by
  match cs with
  | [] => rfl
  | [c] => rfl
  | c0 :: c1 :: rest =>
    have h1 : c1.isDigit = true := hdig c1 (by simp)
    have hx : ¬(c1 = 'x' ∨ c1 = 'X') := by
      rintro (rfl | rfl) <;> exact absurd h1 (by decide)
    have ho : ¬(c1 = 'o' ∨ c1 = 'O') := by
      rintro (rfl | rfl) <;> exact absurd h1 (by decide)
    have hb : ¬(c1 = 'b' ∨ c1 = 'B') := by
      rintro (rfl | rfl) <;> exact absurd h1 (by decide)
    simp only [radixPrefix]
    by_cases h0 : c0 = '0'
    · rw [if_pos h0, if_neg hx, if_neg ho, if_neg hb]
    · rw [if_neg h0]

/-- On a nonempty all-digit string the mantissa parser returns the digit
value. -/
theorem parseMantissa_digits (cs : List Char) (hne : cs ≠ [])
    (hdig : ∀ c ∈ cs, c.isDigit = true) :
    parseMantissa cs = some (mkRat (Int.ofNat (digitsVal cs)) 1) := by
  have htake : cs.takeWhile Char.isDigit = cs := List.takeWhile_eq_self_iff.mpr hdig
  have hdrop : cs.dropWhile Char.isDigit = [] := List.dropWhile_eq_nil_iff.mpr hdig
  simp only [parseMantissa, htake, hdrop, if_pos rfl, if_neg hne]
  rfl

/-- On a nonempty all-digit string the decimal parser returns the digit
value (no exponent marker present). -/
theorem parseDec_digits (cs : List Char) (hne : cs ≠ [])
    (hdig : ∀ c ∈ cs, c.isDigit = true) :
    parseDec cs = some (mkRat (Int.ofNat (digitsVal cs)) 1) := by
  have hpred : ∀ c ∈ cs, (fun c => decide ¬(c = 'e' ∨ c = 'E')) c = true := by
    intro c hc
    have h := hdig c hc
    simp only [decide_eq_true_eq]
    rintro (rfl | rfl) <;> exact absurd h (by decide)
  have htake : cs.takeWhile (fun c => decide ¬(c = 'e' ∨ c = 'E')) = cs :=
    List.takeWhile_eq_self_iff.mpr hpred
  have hdrop : cs.dropWhile (fun c => decide ¬(c = 'e' ∨ c = 'E')) = [] :=
    List.dropWhile_eq_nil_iff.mpr hpred
  simp only [parseDec, htake, hdrop]
  exact parseMantissa_digits cs hne hdig

/-- On a nonempty all-digit string (no sign, not `Infinity`) the signed
parser returns the digit value. -/
theorem parseSignedDec_digits (cs : List Char) (hne : cs ≠ [])
    (hdig : ∀ c ∈ cs, c.isDigit = true) :
    parseSignedDec cs = .fin (mkRat (Int.ofNat (digitsVal cs)) 1) := by
  obtain ⟨c0, t, rfl⟩ : ∃ c0 t, cs = c0 :: t := by
    cases cs with
    | nil => exact absurd rfl hne
    | cons c t => exact ⟨c, t, rfl⟩
  have h0 : c0.isDigit = true := hdig c0 (List.mem_cons_self c0 t)
  have hplus : ¬((c0 :: t).head? = some '+') := by
    simp only [List.head?_cons, Option.some.injEq]
    exact digit_ne c0 '+' h0 (by decide)
  have hminus : ¬((c0 :: t).head? = some '-') := by
    simp only [List.head?_cons, Option.some.injEq]
    exact digit_ne c0 '-' h0 (by decide)
  have hinf : (c0 :: t) ≠ "Infinity".toList := by
    have : "Infinity".toList = ['I', 'n', 'f', 'i', 'n', 'i', 't', 'y'] := by decide
    rw [this]
    intro e
    injection e with e1 _
    exact digit_ne c0 'I' h0 (by decide) e1
  rw [parseSignedDec, if_neg hplus, if_neg hminus, parseUnsignedDec, if_neg hinf,
    parseDec_digits _ hne hdig]
  simp

/-- `Number(s)` of a nonempty all-digit string is its (non-negative)
numeric value. -/
theorem jsStringToNumber_digits (s : String) (hne : s.toList ≠ [])
    (hdig : ∀ c ∈ s.toList, c.isDigit = true) :
    jsStringToNumber s = .fin (mkRat (Int.ofNat (digitsVal s.toList)) 1) := by
  simp only [jsStringToNumber, trimWs_digits s.toList hdig, if_neg hne,
    radixPrefix_digits s.toList hdig]
  exact parseSignedDec_digits s.toList hne hdig

/-- Claim C6, amended: the `amount` refinement
(`!isNaN(Number(s)) && Number(s) >= 0`) accepts every string that parses
as a non-negative integer with no fractional part and no sign — and more:
it also accepts fractional, plus-signed and exponential numeric strings of
non-negative value. In particular "0" is accepted and "-1" is rejected,
but "1.5", "+1" and "2e3" are accepted as well. -/
theorem amountRefinement_contract :
    (∀ s : String, specAmountAccepts s = true → amountRefinement s = true) ∧
    amountRefinement "0" = true ∧ amountRefinement "-1" = false ∧
    amountRefinement "1.5" = true ∧ amountRefinement "+1" = true ∧
    amountRefinement "2e3" = true := by
  refine ⟨?_, by decide, by decide, by decide, by decide, by decide⟩
  intro s h
  simp only [specAmountAccepts, Bool.and_eq_true, decide_eq_true_eq,
    List.all_eq_true] at h
  obtain ⟨hne, hall⟩ := h
  have hdig : ∀ c ∈ s.toList, c.isDigit = true := fun c hc => hall c hc
  rw [amountRefinement, jsStringToNumber_digits s hne hdig]
  have hq : (0 : ℚ) ≤ mkRat (Int.ofNat (digitsVal s.toList)) 1 := by
    rw [Rat.mkRat_one]
    exact Int.cast_nonneg.mpr (Int.ofNat_nonneg _)
  exact decide_eq_true hq

/-- Claim C6, counterexample: the string "1.5" has a fractional part, so by
the claim it must be rejected, yet `Number("1.5") = 1.5 >= 0` makes the
refinement accept it — acceptance is not equivalent to parsing as a
non-negative integer with no fractional part and no sign. -/
theorem amountRefinement_fractional_cx :
    amountRefinement "1.5" = true ∧ specAmountAccepts "1.5" = false :=
  ⟨by decide, by decide⟩

/-- Witness for `amountRefinement_contract` on the digit string "42". -/
theorem amountRefinement_contract_witness :
    specAmountAccepts "42" = true ∧ amountRefinement "42" = true :=
  ⟨by decide, amountRefinement_contract.1 "42" (by decide)⟩
